import Mathlib

/-!
Verification of the synthetic stock-price generator and chart-data contract
of `app.py` (stock-market-prediction).

The script draws from a single seeded numpy random stream.  We embed that
stream as an oracle `RNG`: `uniFn k lo hi` is the value of the `k`-th draw
when that draw is `np.random.randint(lo, hi)` (numpy's bounds: `lo`
inclusive, `hi` exclusive), and `gauFn k` is the value of the `k`-th draw
when that draw is `np.random.normal(0, 10)`.  The draw counter `k` is
threaded through the generation loops exactly in source order.
`RNG.Valid` states the guarantee numpy gives: every uniform integer draw
lies in `[lo, hi)`.
-/

structure RNG where
  uniFn : Nat → Int → Int → Int
  gauFn : Nat → ℚ

def RNG.Valid (r : RNG) : Prop :=
  ∀ (k : Nat) (lo hi : Int), lo < hi → lo ≤ r.uniFn k lo hi ∧ r.uniFn k lo hi < hi

/-- One row of `all_data`: the dictionary appended per (ticker, date) in the
source, with the keys `Date, Ticker, Open, High, Low, Actual_Close,
Predicted_Close`.  Dates are modelled as integer day numbers (the source
uses `datetime` values one day apart).  Prices are integers except
`Predicted_Close`, which adds Gaussian noise and is a rational. -/
structure PriceBar where
  Date : Int
  Ticker : String
  Open : Int
  High : Int
  Low : Int
  Actual_Close : Int
  Predicted_Close : ℚ
deriving DecidableEq

/-- The ticker list `STOCKS` from the source. -/
def STOCKS : List String :=
  ["RELIANCE.NS", "TCS.NS", "INFY.NS", "HDFC.NS", "ICICIBANK.NS",
   "LT.NS", "SBIN.NS", "KOTAKBANK.NS", "ITC.NS", "BHARTIARTL.NS",
   "GOLDBEES.NS", "SILVERBEES.NS"]

/-- The day count `DAYS = 100` from the source. -/
def DAYS : Nat := 100

/-- The list `date_list = [base - timedelta(days=x) for x in range(DAYS)][::-1]`,
with `base` the current day number. -/
def date_list (base : Int) (days : Nat) : List Int :=
  ((List.range days).map (fun (x : Nat) => base - (x : Int))).reverse

/-- The body of the inner loop: one day's bar.
`open_price = price + randint(-20, 20)`, `high_price = open_price + randint(0, 20)`,
`low_price = open_price - randint(0, 20)`, `actual_close = open_price + randint(-15, 15)`,
`predicted_close = actual_close + normal(0, 10)`; the five draws happen at
counter positions `k, k+1, k+2, k+3, k+4`. -/
def genDay (r : RNG) (ticker : String) (dt : Int) (price : Int) (k : Nat) : PriceBar :=
  let open_price := price + r.uniFn k (-20) 20
  let high_price := open_price + r.uniFn (k + 1) 0 20
  let low_price := open_price - r.uniFn (k + 2) 0 20
  let actual_close := open_price + r.uniFn (k + 3) (-15) 15
  let predicted_close : ℚ := (actual_close : ℚ) + r.gauFn (k + 4)
  ⟨dt, ticker, open_price, high_price, low_price, actual_close, predicted_close⟩

/-- The inner loop `for dt in date_list`: emits one bar per date, then sets
`price = actual_close` for the next iteration.  Returns the bars and the
draw counter after the loop. -/
def genDays (r : RNG) (ticker : String) : List Int → Int → Nat → List PriceBar × Nat
  | [], _, k => ([], k)
  | dt :: rest, price, k =>
    let bar := genDay r ticker dt price k
    let out := genDays r ticker rest bar.Actual_Close (k + 5)
    (bar :: out.1, out.2)

/-- One iteration of the outer loop: `price = 1000 + randint(-10, 10)`
then the inner loop over the dates. -/
def genTicker (r : RNG) (ticker : String) (dates : List Int) (k : Nat) : List PriceBar × Nat :=
  genDays r ticker dates (1000 + r.uniFn k (-10) 10) (k + 1)

/-- The outer loop `for ticker in STOCKS`, accumulating `all_data`. -/
def genAll (r : RNG) (dates : List Int) : List String → Nat → List PriceBar × Nat
  | [], k => ([], k)
  | ticker :: rest, k =>
    let out := genTicker r ticker dates k
    let out2 := genAll r dates rest out.2
    (out.1 ++ out2.1, out2.2)

/-- The list `all_data` after the generation loops, as a function of the
random stream and of `base` (today's day number). -/
def all_data (r : RNG) (base : Int) : List PriceBar :=
  (genAll r (date_list base DAYS) STOCKS 0).1

/-- The key order of `df.sort_values(['Ticker', 'Date'])`: by ticker first
(string lexicographic order), ties broken by date ascending. -/
def tickerDateLe (a b : PriceBar) : Prop :=
  a.Ticker < b.Ticker ∨ (a.Ticker = b.Ticker ∧ a.Date ≤ b.Date)

instance : DecidableRel tickerDateLe := fun a b => by
  unfold tickerDateLe; infer_instance

/-- The key order of `df_filtered.sort_values('Date')`: by date ascending. -/
def dateLe (a b : PriceBar) : Prop :=
  a.Date ≤ b.Date

instance : DecidableRel dateLe := fun a b => by
  unfold dateLe; infer_instance

/-- The rows written by `df.sort_values(['Ticker', 'Date'])` followed by
`df.to_excel(...)`: `all_data` sorted by ticker then date.  The sort is
modelled by insertion sort on the same key order. -/
def export_rows (r : RNG) (base : Int) : List PriceBar :=
  List.insertionSort tickerDateLe (all_data r base)

/-- The column headers the export writes, in order: the keys of the
per-row dictionary. -/
def export_columns : List String :=
  ["Date", "Ticker", "Open", "High", "Low", "Actual_Close", "Predicted_Close"]

/-- One row of cells, in column order, as the export writes it. -/
def export_row (b : PriceBar) : List ℚ × String :=
  (([(b.Date : ℚ), (b.Open : ℚ), (b.High : ℚ), (b.Low : ℚ),
     (b.Actual_Close : ℚ), b.Predicted_Close]), b.Ticker)

/-- A Plotly trace, as built in `update_chart`: either the candlestick of
the actual OHLC data or the scatter line of the predicted closes. -/
inductive Trace where
  | candlestick (x : List Int) (open' : List Int) (high : List Int) (low : List Int)
      (close : List Int) (increasing_line_color : String) (decreasing_line_color : String)
      (name : String) : Trace
  | scatter (x : List Int) (y : List ℚ) (mode : String) (name : String) : Trace
deriving DecidableEq

/-- The figure layout fields `update_chart` sets (only the ones it sets). -/
structure FigLayout where
  plot_bgcolor : Option String := none
  paper_bgcolor : Option String := none
  font_color : Option String := none
  title : Option String := none
  xaxis_title : Option String := none
  yaxis_title : Option String := none
  template : Option String := none
  hovermode : Option String := none
deriving DecidableEq

/-- A Plotly figure: a layout and the list of traces added to it. -/
structure Figure where
  layout : FigLayout
  traces : List Trace
deriving DecidableEq

/-- The empty styled figure returned when no ticker is selected:
`go.Figure(layout=dict(plot_bgcolor='#111111', paper_bgcolor='#111111',
font_color='white'))`. -/
def emptyFigure : Figure :=
  { layout := { plot_bgcolor := some "#111111", paper_bgcolor := some "#111111",
                font_color := some "white" },
    traces := [] }

/-- The rows `df_filtered = df[df['Ticker'] == selected_ticker].copy()`
after `df_filtered.sort_values('Date', inplace=True)`. -/
def df_filtered (df : List PriceBar) (selected_ticker : String) : List PriceBar :=
  List.insertionSort dateLe (df.filter (fun b => b.Ticker == selected_ticker))

/-- The figure built from the filtered rows: the candlestick trace of the
actual OHLC columns and the dashed scatter of `Predicted_Close`, with the
layout `update_chart` configures. -/
def chartFigure (selected_ticker : String) (rows : List PriceBar) : Figure :=
  { layout := { title := some (selected_ticker ++ " Price: Actual & Predicted"),
                xaxis_title := some "Date", yaxis_title := some "Price",
                template := some "plotly_dark", hovermode := some "x unified" },
    traces :=
      [Trace.candlestick (rows.map PriceBar.Date) (rows.map PriceBar.Open)
         (rows.map PriceBar.High) (rows.map PriceBar.Low)
         (rows.map PriceBar.Actual_Close) "green" "red" "Actual Price",
       Trace.scatter (rows.map PriceBar.Date) (rows.map PriceBar.Predicted_Close)
         "lines" "Predicted Price"]}

/-- Python truthiness of the dropdown value: `not selected_ticker` is true
for `None` and for the empty string. -/
def isFalsy : Option String → Bool
  | none => true
  | some s => s == ""

/-- The callback `update_chart(selected_ticker)`, as a pure function of
the table it reads and the dropdown value. -/
def update_chart (df : List PriceBar) (selected_ticker : Option String) : Figure :=
  if isFalsy selected_ticker then emptyFigure
  else
    match selected_ticker with
    | none => emptyFigure
    | some t => chartFigure t (df_filtered df t)

/-- The environment of named dataframes the callback touches: the module
global `df` and the callback-local `df_filtered`.  Assignment shadows. -/
def Store := List (String × List PriceBar)

/-- Reading a dataframe variable. -/
def getVar (σ : Store) (x : String) : List PriceBar :=
  match σ.find? (fun p => p.1 == x) with
  | some p => p.2
  | none => []

/-- Binding (or rebinding) a dataframe variable. -/
def setVar (σ : Store) (x : String) (v : List PriceBar) : Store :=
  (x, v) :: σ

/-- The callback body as statements over the store, mirroring the source:
`df_filtered = df[df['Ticker'] == selected_ticker].copy()` binds a fresh
local; `df_filtered.sort_values('Date', inplace=True)` mutates only that
local; building the figure reads the local.  Returns the store after the
call and the figure. -/
def update_chart_callback (σ : Store) (selected_ticker : Option String) : Store × Figure :=
  if isFalsy selected_ticker then (σ, emptyFigure)
  else
    match selected_ticker with
    | none => (σ, emptyFigure)
    | some t =>
      let σ1 := setVar σ "df_filtered"
        ((getVar σ "df").filter (fun b => b.Ticker == t))
      let σ2 := setVar σ1 "df_filtered"
        (List.insertionSort dateLe (getVar σ1 "df_filtered"))
      (σ2, chartFigure t (getVar σ2 "df_filtered"))

/-- The relation between a record and the next record of the same ticker:
the next day's open is the previous day's actual close plus an offset in
`[-20, 19]`. -/
def openStep (a b : PriceBar) : Prop :=
  -20 ≤ b.Open - a.Actual_Close ∧ b.Open - a.Actual_Close ≤ 19

/-- Two random streams agree on every draw with index below `n`. -/
def AgreeBelow (r1 r2 : RNG) (n : Nat) : Prop :=
  ∀ j < n, (∀ lo hi : Int, r1.uniFn j lo hi = r2.uniFn j lo hi) ∧ r1.gauFn j = r2.gauFn j

/-- A concrete in-range stream: every uniform draw returns its lower
bound, every Gaussian draw returns 0. -/
def rMin : RNG := ⟨fun _ lo _ => lo, fun _ => 0⟩

/-- A concrete in-range stream whose intraday high/low offsets are always
0 while every other uniform draw is maximal: the close of a day then lands
above the day's high. -/
def rEscape : RNG := ⟨fun _ lo hi => if lo = 0 then 0 else hi - 1, fun _ => 0⟩

/-- A stream that agrees with `rMin` on the 6012 draws the script
consumes and differs afterwards. -/
def rTail : RNG :=
  ⟨fun j lo hi => if j < 6012 then lo else hi - 1,
   fun j => if j < 6012 then 0 else 1⟩

instance : IsTrans PriceBar tickerDateLe := by
  constructor
  intro a b c hab hbc
  rcases hab with h1 | ⟨h1, h2⟩ <;> rcases hbc with h3 | ⟨h3, h4⟩
  · exact Or.inl (lt_trans h1 h3)
  · exact Or.inl (h3 ▸ h1)
  · exact Or.inl (h1 ▸ h3)
  · exact Or.inr ⟨h1.trans h3, le_trans h2 h4⟩

instance : IsTotal PriceBar tickerDateLe := by
  constructor
  intro a b
  rcases lt_trichotomy a.Ticker b.Ticker with h | h | h
  · exact Or.inl (Or.inl h)
  · rcases le_total a.Date b.Date with hd | hd
    · exact Or.inl (Or.inr ⟨h, hd⟩)
    · exact Or.inr (Or.inr ⟨h.symm, hd⟩)
  · exact Or.inr (Or.inl h)

instance : IsTrans PriceBar dateLe := by
  constructor
  intro a b c hab hbc
  exact le_trans hab hbc

instance : IsTotal PriceBar dateLe := by
  constructor
  intro a b
  exact le_total a.Date b.Date

/-! ### Structural lemmas about the generator -/

theorem genDay_Date (r : RNG) (tk : String) (dt p : Int) (k : Nat) :
    (genDay r tk dt p k).Date = dt := rfl

theorem genDay_Ticker (r : RNG) (tk : String) (dt p : Int) (k : Nat) :
    (genDay r tk dt p k).Ticker = tk := rfl

theorem genDay_Open (r : RNG) (tk : String) (dt p : Int) (k : Nat) :
    (genDay r tk dt p k).Open = p + r.uniFn k (-20) 20 := rfl

theorem genDay_High (r : RNG) (tk : String) (dt p : Int) (k : Nat) :
    (genDay r tk dt p k).High = (genDay r tk dt p k).Open + r.uniFn (k + 1) 0 20 := rfl

theorem genDay_Low (r : RNG) (tk : String) (dt p : Int) (k : Nat) :
    (genDay r tk dt p k).Low = (genDay r tk dt p k).Open - r.uniFn (k + 2) 0 20 := rfl

theorem genDay_Actual_Close (r : RNG) (tk : String) (dt p : Int) (k : Nat) :
    (genDay r tk dt p k).Actual_Close = (genDay r tk dt p k).Open + r.uniFn (k + 3) (-15) 15 := rfl

theorem genDays_nil (r : RNG) (tk : String) (p : Int) (k : Nat) :
    genDays r tk [] p k = ([], k) := rfl

theorem genDays_cons (r : RNG) (tk : String) (dt : Int) (rest : List Int) (p : Int) (k : Nat) :
    genDays r tk (dt :: rest) p k =
      ((genDay r tk dt p k) ::
         (genDays r tk rest (genDay r tk dt p k).Actual_Close (k + 5)).1,
       (genDays r tk rest (genDay r tk dt p k).Actual_Close (k + 5)).2) := rfl

theorem genDays_map_Date (r : RNG) (tk : String) :
    ∀ (dates : List Int) (p : Int) (k : Nat),
      ((genDays r tk dates p k).1).map PriceBar.Date = dates
  | [], _, _ => rfl
  | dt :: rest, p, k => by
    rw [genDays_cons]
    simp only [List.map_cons, genDay_Date, genDays_map_Date r tk rest]

theorem genDays_length (r : RNG) (tk : String) (dates : List Int) (p : Int) (k : Nat) :
    ((genDays r tk dates p k).1).length = dates.length := by
  have h := congrArg List.length (genDays_map_Date r tk dates p k)
  simpa using h

theorem genDays_ticker (r : RNG) (tk : String) :
    ∀ (dates : List Int) (p : Int) (k : Nat),
      ∀ b ∈ (genDays r tk dates p k).1, b.Ticker = tk
  | [], _, _ => by intro b hb; simp [genDays_nil] at hb
  | dt :: rest, p, k => by
    intro b hb
    rw [genDays_cons] at hb
    rcases List.mem_cons.mp hb with h | h
    · rw [h]; exact genDay_Ticker r tk dt p k
    · exact genDays_ticker r tk rest _ _ b h

theorem genDays_counter (r : RNG) (tk : String) :
    ∀ (dates : List Int) (p : Int) (k : Nat),
      (genDays r tk dates p k).2 = k + 5 * dates.length
  | [], _, _ => rfl
  | dt :: rest, p, k => by
    rw [genDays_cons]
    simp only [genDays_counter r tk rest, List.length_cons]
    ring

theorem genTicker_bars (r : RNG) (tk : String) (dates : List Int) (k : Nat) :
    (genTicker r tk dates k).1 =
      (genDays r tk dates (1000 + r.uniFn k (-10) 10) (k + 1)).1 := rfl

theorem genTicker_counter (r : RNG) (tk : String) (dates : List Int) (k : Nat) :
    (genTicker r tk dates k).2 = k + 1 + 5 * dates.length := by
  unfold genTicker
  rw [genDays_counter]

theorem genAll_nil (r : RNG) (dates : List Int) (k : Nat) :
    genAll r dates [] k = ([], k) := rfl

theorem genAll_cons (r : RNG) (dates : List Int) (tk : String) (rest : List String) (k : Nat) :
    genAll r dates (tk :: rest) k =
      ((genTicker r tk dates k).1 ++ (genAll r dates rest (genTicker r tk dates k).2).1,
       (genAll r dates rest (genTicker r tk dates k).2).2) := rfl

theorem genAll_length (r : RNG) (dates : List Int) :
    ∀ (tickers : List String) (k : Nat),
      ((genAll r dates tickers k).1).length = tickers.length * dates.length
  | [], _ => by simp [genAll_nil]
  | tk :: rest, k => by
    rw [genAll_cons]
    simp only [List.length_append, List.length_cons, genAll_length r dates rest]
    rw [genTicker_bars, genDays_length]
    ring

theorem genAll_counter (r : RNG) (dates : List Int) :
    ∀ (tickers : List String) (k : Nat),
      (genAll r dates tickers k).2 = k + tickers.length * (1 + 5 * dates.length)
  | [], _ => by simp [genAll_nil]
  | tk :: rest, k => by
    rw [genAll_cons]
    simp only [genAll_counter r dates rest, genTicker_counter, List.length_cons]
    ring

theorem genAll_ticker_mem (r : RNG) (dates : List Int) :
    ∀ (tickers : List String) (k : Nat),
      ∀ b ∈ (genAll r dates tickers k).1, b.Ticker ∈ tickers
  | [], _ => by intro b hb; simp [genAll_nil] at hb
  | tk :: rest, k => by
    intro b hb
    rw [genAll_cons] at hb
    rcases List.mem_append.mp hb with h | h
    · rw [genTicker_bars] at h
      rw [genDays_ticker r tk dates _ _ b h]
      exact List.mem_cons_self tk rest
    · exact List.mem_cons_of_mem tk (genAll_ticker_mem r dates rest _ b h)

/-- Filtering the whole table by a ticker that occurs exactly once in the
ticker list recovers that ticker's own series (generated at some draw
counter position). -/
theorem genAll_filter (r : RNG) (dates : List Int) :
    ∀ (tickers : List String) (k : Nat) (t : String),
      t ∈ tickers → tickers.Nodup →
      ∃ k2, ((genAll r dates tickers k).1).filter (fun b => b.Ticker == t) =
        (genTicker r t dates k2).1
  | [], _, t => by intro h; exact absurd h (List.not_mem_nil t)
  | tk :: rest, k, t => by
    intro hmem hnd
    rw [genAll_cons, List.filter_append]
    rcases List.nodup_cons.mp hnd with ⟨hnotin, hndrest⟩
    rcases List.mem_cons.mp hmem with heq | hmemrest
    · subst heq
      have h1 : ((genTicker r t dates k).1).filter (fun b => b.Ticker == t) =
          (genTicker r t dates k).1 := by
        apply List.filter_eq_self.mpr
        intro b hb
        rw [genTicker_bars] at hb
        simp [genDays_ticker r t dates _ _ b hb]
      have h2 : ((genAll r dates rest (genTicker r t dates k).2).1).filter
          (fun b => b.Ticker == t) = [] := by
        apply List.filter_eq_nil_iff.mpr
        intro b hb
        have := genAll_ticker_mem r dates rest _ b hb
        simp only [beq_iff_eq]
        intro hbt
        exact hnotin (hbt ▸ this)
      rw [h1, h2, List.append_nil]
      exact ⟨k, rfl⟩
    · have h1 : ((genTicker r tk dates k).1).filter (fun b => b.Ticker == t) = [] := by
        apply List.filter_eq_nil_iff.mpr
        intro b hb
        rw [genTicker_bars] at hb
        rw [genDays_ticker r tk dates _ _ b hb]
        simp only [beq_iff_eq]
        intro hbt
        exact hnotin (hbt ▸ hmemrest)
      rw [h1, List.nil_append]
      exact genAll_filter r dates rest _ t hmemrest hndrest

/-! ### The date list -/

theorem date_list_zero (base : Int) : date_list base 0 = [] := rfl

theorem date_list_length (base : Int) (days : Nat) :
    (date_list base days).length = days := by
  unfold date_list
  rw [List.length_reverse, List.length_map, List.length_range]

theorem date_list_succ (base : Int) (n : Nat) :
    date_list base (n + 1) = (base - (n : Int)) :: date_list base n := by
  simp [date_list, List.range_succ]

theorem date_list_head (base : Int) (n : Nat) :
    (date_list base (n + 1)).head? = some (base - (n : Int)) := by
  rw [date_list_succ]; rfl

/-- Consecutive dates differ by exactly one day: the date list is a
contiguous, strictly ascending daily sequence. -/
theorem date_list_chain (base : Int) :
    ∀ days : Nat, List.Chain' (fun a b => b = a + 1) (date_list base days)
  | 0 => by rw [date_list_zero]; simp
  | 1 => by rw [date_list_succ, date_list_zero]; simp
  | n + 2 => by
    rw [date_list_succ]
    apply List.chain'_cons'.mpr
    refine ⟨?_, date_list_chain base (n + 1)⟩
    intro b hb
    rw [date_list_head] at hb
    simp only [Option.mem_def, Option.some.injEq] at hb
    subst hb
    push_cast
    ring

/-! ### The first-order random-walk step, and the intraday bracketing -/

theorem genDays_head (r : RNG) (tk : String) (dt : Int) (rest : List Int) (p : Int) (k : Nat) :
    ((genDays r tk (dt :: rest) p k).1).head? = some (genDay r tk dt p k) := rfl

theorem genDays_chain (r : RNG) (hr : r.Valid) (tk : String) :
    ∀ (dates : List Int) (p : Int) (k : Nat),
      List.Chain' openStep (genDays r tk dates p k).1
  | [], _, _ => by simp [genDays_nil]
  | [dt], p, k => by
    rw [genDays_cons]
    simp [genDays_nil]
  | dt :: dt2 :: rest, p, k => by
    rw [genDays_cons]
    apply List.chain'_cons'.mpr
    refine ⟨?_, genDays_chain r hr tk (dt2 :: rest) _ _⟩
    intro b hb
    rw [genDays_head] at hb
    simp only [Option.mem_def, Option.some.injEq] at hb
    subst hb
    have hu := hr (k + 5) (-20) 20 (by norm_num)
    constructor
    · rw [genDay_Open]
      omega
    · rw [genDay_Open]
      omega

theorem genDays_high_low (r : RNG) (hr : r.Valid) (tk : String) :
    ∀ (dates : List Int) (p : Int) (k : Nat),
      ∀ b ∈ (genDays r tk dates p k).1, b.Open ≤ b.High ∧ b.Low ≤ b.Open
  | [], _, _ => by intro b hb; simp [genDays_nil] at hb
  | dt :: rest, p, k => by
    intro b hb
    rw [genDays_cons] at hb
    rcases List.mem_cons.mp hb with h | h
    · subst h
      have h1 := hr (k + 1) 0 20 (by norm_num)
      have h2 := hr (k + 2) 0 20 (by norm_num)
      rw [genDay_High, genDay_Low]
      omega
    · exact genDays_high_low r hr tk rest _ _ b h

theorem genAll_high_low (r : RNG) (hr : r.Valid) (dates : List Int) :
    ∀ (tickers : List String) (k : Nat),
      ∀ b ∈ (genAll r dates tickers k).1, b.Open ≤ b.High ∧ b.Low ≤ b.Open
  | [], _ => by intro b hb; simp [genAll_nil] at hb
  | tk :: rest, k => by
    intro b hb
    rw [genAll_cons] at hb
    rcases List.mem_append.mp hb with h | h
    · rw [genTicker_bars] at h
      exact genDays_high_low r hr tk dates _ _ b h
    · exact genAll_high_low r hr dates rest _ b h

/-! ### Determinism: the output depends only on the finitely many draws
the loops consume -/

theorem genDay_congr (r1 r2 : RNG) (n : Nat) (hA : AgreeBelow r1 r2 n)
    (tk : String) (dt p : Int) (k : Nat) (hk : k + 5 ≤ n) :
    genDay r1 tk dt p k = genDay r2 tk dt p k := by
  unfold genDay
  rw [(hA k (by omega)).1, (hA (k + 1) (by omega)).1, (hA (k + 2) (by omega)).1,
    (hA (k + 3) (by omega)).1, (hA (k + 4) (by omega)).2]

theorem genDays_congr (r1 r2 : RNG) (n : Nat) (hA : AgreeBelow r1 r2 n) (tk : String) :
    ∀ (dates : List Int) (p : Int) (k : Nat),
      (genDays r1 tk dates p k).2 ≤ n →
      genDays r1 tk dates p k = genDays r2 tk dates p k
  | [], _, _ => by intro; rfl
  | dt :: rest, p, k => by
    intro hb
    rw [genDays_counter] at hb
    simp only [List.length_cons] at hb
    have hday : genDay r1 tk dt p k = genDay r2 tk dt p k :=
      genDay_congr r1 r2 n hA tk dt p k (by omega)
    rw [genDays_cons, genDays_cons, hday]
    have hrest : genDays r1 tk rest (genDay r2 tk dt p k).Actual_Close (k + 5) =
        genDays r2 tk rest (genDay r2 tk dt p k).Actual_Close (k + 5) := by
      apply genDays_congr r1 r2 n hA tk rest _ (k + 5)
      rw [genDays_counter]
      omega
    rw [hrest]

theorem genTicker_congr (r1 r2 : RNG) (n : Nat) (hA : AgreeBelow r1 r2 n)
    (tk : String) (dates : List Int) (k : Nat)
    (hk : (genTicker r1 tk dates k).2 ≤ n) :
    genTicker r1 tk dates k = genTicker r2 tk dates k := by
  unfold genTicker
  have hb : (genTicker r1 tk dates k).2 = k + 1 + 5 * dates.length :=
    genTicker_counter r1 tk dates k
  have h0 : k < n := by
    rw [hb] at hk; omega
  rw [(hA k h0).1]
  apply genDays_congr r1 r2 n hA
  rw [genDays_counter]
  rw [hb] at hk
  omega

theorem genAll_congr (r1 r2 : RNG) (n : Nat) (hA : AgreeBelow r1 r2 n) (dates : List Int) :
    ∀ (tickers : List String) (k : Nat),
      (genAll r1 dates tickers k).2 ≤ n →
      genAll r1 dates tickers k = genAll r2 dates tickers k
  | [], _ => by intro; rfl
  | tk :: rest, k => by
    intro hb
    have htick : genTicker r1 tk dates k = genTicker r2 tk dates k := by
      apply genTicker_congr r1 r2 n hA
      calc (genTicker r1 tk dates k).2
          ≤ (genAll r1 dates rest (genTicker r1 tk dates k).2).2 := by
            rw [genAll_counter]
            exact Nat.le_add_right _ _
        _ ≤ n := hb
    rw [genAll_cons, genAll_cons, htick]
    have hrest : genAll r1 dates rest (genTicker r2 tk dates k).2 =
        genAll r2 dates rest (genTicker r2 tk dates k).2 := by
      apply genAll_congr r1 r2 n hA dates rest
      rw [← htick]
      exact hb
    rw [hrest]

/-! ### Properties of the witness streams -/

theorem rMin_valid : rMin.Valid := fun _ lo _ h => ⟨le_refl lo, h⟩

theorem rEscape_valid : rEscape.Valid := by
  intro k lo hi h
  unfold rEscape
  dsimp only
  split
  · next heq => exact ⟨heq ▸ le_refl lo, heq ▸ h⟩
  · exact ⟨by omega, by omega⟩

theorem agree_rMin_rTail : AgreeBelow rMin rTail (STOCKS.length * (1 + 5 * DAYS)) := by
  intro j hj
  have hj6 : j < 6012 := by
    have : STOCKS.length * (1 + 5 * DAYS) = 6012 := by decide
    omega
  refine ⟨fun lo hi => ?_, ?_⟩
  · simp [rMin, rTail, hj6]
  · simp [rMin, rTail, hj6]

/-! ### The claims -/

/-- C1: the generator is the stated first-order random walk: per ticker the
state starts at `1000 + uniformInt(-10, 9)` and is set to each day's actual
close, each day's open being the state plus `uniformInt(-20, 19)`; hence,
for any in-range random stream, every record of a ticker's series except the
first has an open equal to the previous record's actual close plus an
offset in `[-20, 19]`. -/
theorem walk_open_offset (r : RNG) (base : Int) (t : String)
    (hr : r.Valid) (ht : t ∈ STOCKS) :
    List.Chain' openStep ((all_data r base).filter (fun b => b.Ticker == t)) := by
  obtain ⟨k2, hk⟩ := genAll_filter r (date_list base DAYS) STOCKS 0 t ht (by decide)
  unfold all_data
  rw [hk, genTicker_bars]
  exact genDays_chain r hr t _ _ _

theorem walk_open_offset_witness :
    rMin.Valid ∧ "RELIANCE.NS" ∈ STOCKS ∧
      List.Chain' openStep
        ((all_data rMin 0).filter (fun b => b.Ticker == "RELIANCE.NS")) :=
  ⟨rMin_valid, by decide,
   walk_open_offset rMin 0 "RELIANCE.NS" rMin_valid (by decide)⟩

/-- C2: the table has exactly `12 × 100 = 1200` records, and for each
ticker of `STOCKS` the records of that ticker carry exactly the 100 dates
of `date_list`, which is a contiguous, strictly ascending daily
sequence. -/
theorem table_shape (r : RNG) (base : Int) :
    (all_data r base).length = 1200 ∧
    (date_list base DAYS).length = 100 ∧
    List.Chain' (fun a b => b = a + 1) (date_list base DAYS) ∧
    ∀ t ∈ STOCKS,
      ((all_data r base).filter (fun b => b.Ticker == t)).map PriceBar.Date =
        date_list base DAYS := by
  refine ⟨?_, date_list_length base DAYS, date_list_chain base DAYS, ?_⟩
  · unfold all_data
    rw [genAll_length, date_list_length]
    decide
  · intro t ht
    obtain ⟨k2, hk⟩ := genAll_filter r (date_list base DAYS) STOCKS 0 t ht (by decide)
    unfold all_data
    rw [hk, genTicker_bars, genDays_map_Date]

theorem table_shape_witness :
    "TCS.NS" ∈ STOCKS ∧
    (all_data rMin 0).length = 1200 ∧
    ((all_data rMin 0).filter (fun b => b.Ticker == "TCS.NS")).map PriceBar.Date =
      date_list 0 DAYS :=
  ⟨by decide, (table_shape rMin 0).1,
   (table_shape rMin 0).2.2.2 "TCS.NS" (by decide)⟩

/-- C3: every generated record has `high ≥ open` and `low ≤ open`, for any
in-range random stream. -/
theorem high_low_bracket (r : RNG) (base : Int) (hr : r.Valid) :
    ∀ b ∈ all_data r base, b.Open ≤ b.High ∧ b.Low ≤ b.Open := by
  intro b hb
  exact genAll_high_low r hr (date_list base DAYS) STOCKS 0 b hb

theorem high_low_bracket_witness :
    rMin.Valid ∧ ∀ b ∈ all_data rMin 0, b.Open ≤ b.High ∧ b.Low ≤ b.Open :=
  ⟨rMin_valid, high_low_bracket rMin 0 rMin_valid⟩

/-- C4: no invariant keeps the actual close inside the `[low, high]` band:
there is an in-range random stream for which an emitted record has its
actual close strictly above its high (or strictly below its low). -/
theorem close_escapes_band :
    ∃ r : RNG, r.Valid ∧
      ∃ b ∈ all_data r 0, b.High < b.Actual_Close ∨ b.Actual_Close < b.Low := by
  refine ⟨rEscape, rEscape_valid, ?_⟩
  decide

/-- C5: the output is a function of the draws actually consumed: two runs
whose seeded streams agree on the `12 × (1 + 5 × 100) = 6012` draws the
loops make (as two runs from the same fixed seed do) produce identical
tables, for the same ticker list, day count and base date. -/
theorem generator_deterministic (r1 r2 : RNG) (base : Int)
    (hA : AgreeBelow r1 r2 (STOCKS.length * (1 + 5 * DAYS))) :
    all_data r1 base = all_data r2 base := by
  have hb : (genAll r1 (date_list base DAYS) STOCKS 0).2 ≤
      STOCKS.length * (1 + 5 * DAYS) := by
    rw [genAll_counter, date_list_length]
    simp
  unfold all_data
  rw [genAll_congr r1 r2 (STOCKS.length * (1 + 5 * DAYS)) hA (date_list base DAYS)
    STOCKS 0 hb]

theorem generator_deterministic_witness :
    AgreeBelow rMin rTail (STOCKS.length * (1 + 5 * DAYS)) ∧
      all_data rMin 0 = all_data rTail 0 :=
  ⟨agree_rMin_rTail, generator_deterministic rMin rTail 0 agree_rMin_rTail⟩

/-- C6: the export writes one row per generated record (its rows are a
permutation of `all_data`), sorted by ticker first and then by date, under
the column headers `Date, Ticker, Open, High, Low, Actual_Close,
Predicted_Close`. -/
theorem export_sorted (r : RNG) (base : Int) :
    (export_rows r base).Perm (all_data r base) ∧
    List.Sorted tickerDateLe (export_rows r base) ∧
    export_columns =
      ["Date", "Ticker", "Open", "High", "Low", "Actual_Close", "Predicted_Close"] :=
  ⟨List.perm_insertionSort tickerDateLe (all_data r base),
   List.sorted_insertionSort tickerDateLe (all_data r base), rfl⟩

/-- C7: with no selection (or the falsy empty selection) the callback
returns the empty styled placeholder figure; with a selected ticker absent
from the table it returns, without failing, a chart over zero rows (all
trace data lists empty). -/
theorem chart_empty_selection (df : List PriceBar) (sel : Option String) :
    (isFalsy sel = true → update_chart df sel = emptyFigure) ∧
    (∀ t : String, sel = some t → isFalsy sel = false →
      t ∉ df.map PriceBar.Ticker →
      update_chart df sel = chartFigure t [] ∧
      (update_chart df sel).traces =
        [Trace.candlestick [] [] [] [] [] "green" "red" "Actual Price",
         Trace.scatter [] [] "lines" "Predicted Price"]) := by
  constructor
  · intro h
    unfold update_chart
    rw [h]
    rfl
  · intro t hsel hfalsy hmem
    subst hsel
    have hempty : df_filtered df t = [] := by
      unfold df_filtered
      have hfil : df.filter (fun b => b.Ticker == t) = [] := by
        apply List.filter_eq_nil_iff.mpr
        intro b hb
        simp only [beq_iff_eq]
        intro hbt
        exact hmem (hbt ▸ List.mem_map_of_mem PriceBar.Ticker hb)
      rw [hfil]
      rfl
    constructor
    · unfold update_chart
      rw [hfalsy]
      simp only [Bool.false_eq_true, if_false]
      rw [hempty]
    · unfold update_chart
      rw [hfalsy]
      simp only [Bool.false_eq_true, if_false]
      rw [hempty]
      rfl

theorem chart_empty_selection_witness :
    update_chart [] none = emptyFigure ∧
    (update_chart [] (some "ZZZ")).traces =
      [Trace.candlestick [] [] [] [] [] "green" "red" "Actual Price",
       Trace.scatter [] [] "lines" "Predicted Price"] :=
  ⟨(chart_empty_selection [] none).1 rfl,
   ((chart_empty_selection [] (some "ZZZ")).2 "ZZZ" rfl (by decide) (by decide)).2⟩

theorem getVar_setVar_ne (σ : Store) (x y : String) (v : List PriceBar) (h : x ≠ y) :
    getVar (setVar σ x v) y = getVar σ y := by
  unfold getVar setVar
  have hpx : ((x, v).1 == y) = false := by
    simp [h]
  rw [List.find?_cons_of_neg _ (by simp [hpx])]

/-- C8: an invocation of the chart callback, for any selection value, only
filters and reads the global table: in the resulting store the binding of
`df` is exactly what it was before the call (the in-place date sort hits
only the callback-local `df_filtered`). -/
theorem callback_frame (σ : Store) (sel : Option String) :
    getVar (update_chart_callback σ sel).1 "df" = getVar σ "df" := by
  unfold update_chart_callback
  split
  · rfl
  · match sel with
    | none => rfl
    | some t =>
      dsimp only
      rw [getVar_setVar_ne _ _ _ _ (by decide), getVar_setVar_ne _ _ _ _ (by decide)]

/-- C9: for a (nonempty-string) ticker selected from the table, the chart
is built from exactly the rows whose ticker equals the selection — every
charted row carries that ticker and the charted rows are a permutation of
the filtered table — arranged in ascending date order. -/
theorem chart_exact_rows (df : List PriceBar) (t : String)
    (ht : t ≠ "") (_hmem : t ∈ df.map PriceBar.Ticker) :
    (∀ b ∈ df_filtered df t, b.Ticker = t) ∧
    (df_filtered df t).Perm (df.filter (fun b => b.Ticker == t)) ∧
    List.Sorted dateLe (df_filtered df t) ∧
    update_chart df (some t) = chartFigure t (df_filtered df t) := by
  refine ⟨?_, List.perm_insertionSort dateLe _, List.sorted_insertionSort dateLe _, ?_⟩
  · intro b hb
    unfold df_filtered at hb
    have hb2 : b ∈ df.filter (fun b => b.Ticker == t) :=
      (List.perm_insertionSort dateLe _).mem_iff.mp hb
    have := List.of_mem_filter hb2
    simpa using this
  · unfold update_chart
    have hfalsy : isFalsy (some t) = false := by
      simp [isFalsy, ht]
    rw [hfalsy]
    simp only [Bool.false_eq_true, if_false]

theorem chart_exact_rows_witness :
    ("A" : String) ≠ "" ∧
    "A" ∈ [(⟨0, "A", 1, 2, 0, 1, 1⟩ : PriceBar)].map PriceBar.Ticker ∧
    update_chart [(⟨0, "A", 1, 2, 0, 1, 1⟩ : PriceBar)] (some "A") =
      chartFigure "A" (df_filtered [(⟨0, "A", 1, 2, 0, 1, 1⟩ : PriceBar)] "A") :=
  ⟨by decide, by decide,
   (chart_exact_rows [(⟨0, "A", 1, 2, 0, 1, 1⟩ : PriceBar)] "A"
     (by decide) (by decide)).2.2.2⟩

/-- C10: no clamping or floor is applied to the walk: there is an in-range
random stream under which, within the 100-day window, an emitted record
has a negative open, low or actual close. -/
theorem prices_unbounded_below :
    ∃ r : RNG, r.Valid ∧
      ∃ b ∈ all_data r 0, b.Open < 0 ∨ b.Low < 0 ∨ b.Actual_Close < 0 := by
  refine ⟨rMin, rMin_valid, ?_⟩
  decide
